import Mathlib

/-!
Verification of the rustorrent swarm engine against its design document.

The Rust sources under src/client (pieces.rs, file_manager.rs, message.rs,
bitfield.rs, mod.rs) are shallowly embedded below: machine integers become
Nat with explicit % 2^32 where wraparound matters, HashSet becomes a
duplicate-free List, fallible or panicking code returns Option, and the
one mutable loop with a data-dependent bound is written with an explicit
fuel argument equal to the loop variant.
-/

namespace RTorrent

/-! ## Wire codec (src/client/message.rs) -/

/-- Embedding of enum MessageId (message.rs lines 5-17). -/
inductive MessageId where
  | Choke
  | Unchoke
  | Interested
  | NotInterested
  | Have
  | Bitfield
  | Request
  | Piece
  | Cancel
  | Port
  | KeepAlive
  deriving DecidableEq, Repr

/-- Embedding of MessageId::value (message.rs lines 20-34). -/
def MessageId.value : MessageId → Nat
  | .Choke => 0
  | .Unchoke => 1
  | .Interested => 2
  | .NotInterested => 3
  | .Have => 4
  | .Bitfield => 5
  | .Request => 6
  | .Piece => 7
  | .Cancel => 8
  | .Port => 9
  | .KeepAlive => 10

/-- Embedding of MessageId::from_value (message.rs lines 36-51).  The Rust
match has arms for 0..=10 and a catch-all arm that panics with
unreachable!; the panic is modelled as none.  The Nat-literal match is
rendered as an if-chain so that the catch-all arm is a provable equation. -/
def MessageId.fromValue (id : Nat) : Option MessageId :=
  if id = 0 then some .Choke
  else if id = 1 then some .Unchoke
  else if id = 2 then some .Interested
  else if id = 3 then some .NotInterested
  else if id = 4 then some .Have
  else if id = 5 then some .Bitfield
  else if id = 6 then some .Request
  else if id = 7 then some .Piece
  else if id = 8 then some .Cancel
  else if id = 9 then some .Port
  else if id = 10 then some .KeepAlive
  else none

/-- Embedding of struct Message (message.rs lines 122-127): len is the
u32 length prefix, id the raw id byte, payload the remaining bytes. -/
structure Message where
  len : Nat
  id : Nat
  payload : List Nat
  deriving DecidableEq, Repr

/-- Embedding of Message::new (message.rs lines 130-136):
len = payload.len() as u32 + 1 (the +1 counts the id byte). -/
def Message.new (id : MessageId) (payload : List Nat) : Message :=
  { len := (payload.length % 2 ^ 32 + 1) % 2 ^ 32
    id := id.value
    payload := payload }

/-- Embedding of Message::get_id (message.rs lines 138-140); the panic
inside from_value is modelled as none. -/
def Message.getId (m : Message) : Option MessageId :=
  MessageId.fromValue m.id

/-- Big-endian bytes of a u32 value, as produced by u32::to_be_bytes. -/
def u32be (n : Nat) : List Nat :=
  [n / 2 ^ 24 % 256, n / 2 ^ 16 % 256, n / 2 ^ 8 % 256, n % 256]

/-- Embedding of Message::serialize (message.rs lines 146-152):
4-byte big-endian length prefix, then the id byte, then the payload. -/
def Message.serialize (m : Message) : List Nat :=
  u32be m.len ++ m.id :: m.payload

/-- Embedding of the frame-decoding tail of receive_message
(message.rs lines 227-264), after the 4-byte length prefix L and the
L-byte body have been read from the socket.  If L = 0 the function
returns a KeepAlive message without reading a body; otherwise the first
body byte becomes the id, unchecked, and the rest the payload.  The
index panic message[0] on an empty body is modelled as none. -/
def decodeFrame (L : Nat) (body : List Nat) : Option Message :=
  if L = 0 then some { len := 0, id := MessageId.KeepAlive.value, payload := [] }
  else
    match body with
    | [] => none
    | id :: rest => some { len := L, id := id, payload := rest }

/-! ## File manager (src/client/file_manager.rs)

A file on disk is modelled as the list of bytes actually written so far
paired with its declared length from the metainfo; a freshly created
file has empty content, and reads past the written content yield zero
bytes (the read_at call reads fewer bytes and the zero-initialized
buffer keeps its zeros). -/

/-- Embedding of struct FileManager (file_manager.rs lines 10-14). -/
structure FileManager where
  piece_length : Nat
  files : List (List Nat × Nat)
  deriving DecidableEq, Repr

/-- Embedding of FileManager::new (file_manager.rs lines 17-51): one
freshly created (hence empty) read+write file per declared length, in
metainfo order.  Directory creation and paths carry no meaning here. -/
def FileManager.new (piece_length : Nat) (file_lengths : List Nat) : FileManager :=
  { piece_length := piece_length
    files := file_lengths.map (fun n => ([], n)) }

/-- Semantics of File::write_at on the modelled content: bytes before
off are kept (zero-extended if the file was shorter), data overwrites
[off, off + data.length), bytes after are kept. -/
def writeAt (content data : List Nat) (off : Nat) : List Nat :=
  (content ++ List.replicate (off - content.length) 0).take off
    ++ data ++ content.drop (off + data.length)

/-- Embedding of the file-search loop of FileManager::save_block
(file_manager.rs lines 55-63): walk the files accumulating declared
sizes; the first file whose range contains the global offset receives
the whole buffer at the file-relative offset, then the loop breaks.
If the offset is past the last file nothing is written. -/
def saveBlockFiles (data : List Nat) (off : Nat) :
    List (List Nat × Nat) → Nat → List (List Nat × Nat)
  | [], _ => []
  | (c, sz) :: rest, acc =>
    if off < acc + sz then (writeAt c data (off - acc), sz) :: rest
    else (c, sz) :: saveBlockFiles data off rest (acc + sz)

/-- Embedding of FileManager::save_block (file_manager.rs lines 53-64):
byte_offset = piece_length * piece_index + begin, then the loop above. -/
def FileManager.save_block (fm : FileManager) (piece_index : Nat) (begin : Nat)
    (data : List Nat) : FileManager :=
  { fm with
    files := saveBlockFiles data (fm.piece_length * piece_index + begin) fm.files 0 }

/-- Semantics of File::read_at into a zeroed buffer of length len whose
byte count result is ignored (file_manager.rs lines 75-76): the bytes
available from off onwards, zero-padded up to len. -/
def readAt (content : List Nat) (off len : Nat) : List Nat :=
  ((content.drop off).take len)
    ++ List.replicate (len - ((content.drop off).take len).length) 0

/-- Embedding of the file-search loop of FileManager::verify_piece
(file_manager.rs lines 68-73): advance while offset >= size + acc;
returns the chosen file content, or none when the loop runs past the
last file (a Rust index panic). -/
def pieceFile (off : Nat) : List (List Nat × Nat) → Nat → Option (List Nat)
  | [], _ => none
  | (c, sz) :: rest, acc =>
    if sz + acc ≤ off then pieceFile off rest (acc + sz) else some c

/-- Embedding of the byte buffer that FileManager::verify_piece hashes
(file_manager.rs lines 66-76): the chosen file is read at the GLOBAL
offset piece_length * piece_index — not the file-relative offset — into
a buffer of piece_length zeros.  SHA-1 itself is not modelled; the
claims below are about which bytes are hashed. -/
def FileManager.verifyPieceBuf (fm : FileManager) (piece_index : Nat) :
    Option (List Nat) :=
  (pieceFile (fm.piece_length * piece_index) fm.files 0).map
    (fun c => readAt c (fm.piece_length * piece_index) fm.piece_length)

/-- Modelled from the spec: the file mapper's global byte space (spec
section 3, FileMapper state): concatenating declared file lengths in
order gives the global space; global byte g lives in the file whose
declared-length prefix sum covers g, at the file-relative offset. -/
def byteAt : List (List Nat × Nat) → Nat → Nat
  | [], _ => 0
  | (c, sz) :: rest, g => if g < sz then c.getD g 0 else byteAt rest (g - sz)

/-- Modelled from the spec: reading a global byte range back via the
file mapping (spec section 8, File-offset law). -/
def readGlobal (files : List (List Nat × Nat)) (off len : Nat) : List Nat :=
  (List.range len).map (fun k => byteAt files (off + k))

/-! ## Piece scheduler (src/client/pieces.rs) -/

/-- Embedding of the constant BLOCK_SIZE = 2 << 13 (pieces.rs line 7). -/
def BLOCK_SIZE : Nat := 2 <<< 13

/-- Embedding of struct Block (pieces.rs lines 10-15). -/
structure Block where
  begin : Nat
  length : Nat
  requested : Bool
  completed : Bool
  deriving DecidableEq, Repr

/-- Peer identities are 20-byte strings; modelled as byte lists. -/
abbrev PeerId := List Nat

/-- Embedding of struct Piece (pieces.rs lines 18-24); the HashSet of
peers becomes a duplicate-free list. -/
structure Piece where
  index : Nat
  blocks : List Block
  hash : List Nat
  completed : Bool
  peers : List PeerId
  deriving DecidableEq, Repr

/-- Embedding of struct PieceScheduler (pieces.rs lines 27-31). -/
structure PieceScheduler where
  pieces : List Piece
  file_manager : FileManager
  any_complete : Bool
  deriving DecidableEq, Repr

/-- Embedding of the block-building while loop of PieceScheduler::new
(pieces.rs lines 56-74).  The loop guard is offset < min(piece_length,
remaining_size) where remaining_size is MUTATED inside the loop body;
fuel is an upper bound on the iteration count (each iteration consumes
at least one byte of remaining, so fuel = remaining suffices and the
fuel-out branch coincides with the failed guard).  Returns the blocks
of one piece together with the remaining_size left for later pieces. -/
def blocksLoop : Nat → Nat → Nat → Nat → List Block × Nat
  | 0, _, _, remaining => ([], remaining)
  | fuel + 1, L, offset, remaining =>
    if offset < min L remaining then
      let len := if remaining < BLOCK_SIZE then remaining else BLOCK_SIZE
      let (bs, r) := blocksLoop fuel L (offset + len) (remaining - len)
      ({ begin := offset, length := len, requested := false, completed := false } :: bs, r)
    else ([], remaining)

/-- Embedding of the per-hash piece-building loop of PieceScheduler::new
(pieces.rs lines 55-84): one Piece per 20-byte hash, threading
remaining_size through the block loops. -/
def mkPieces (L : Nat) : List (List Nat) → Nat → Nat → List Piece
  | [], _, _ => []
  | h :: t, i, remaining =>
    let br := blocksLoop remaining L 0 remaining
    { index := i, blocks := br.1, hash := h, completed := false, peers := [] }
      :: mkPieces L t (i + 1) br.2

/-- Embedding of PieceScheduler::new (pieces.rs lines 34-91), taking the
data the Info match destructures (lines 35-46): the per-piece hashes,
the piece length, the total size (sum of file lengths in the multi-file
case) and the declared file lengths for the FileManager.  The u32 casts
of total_size and piece_length are the explicit % 2^32.  The assert
that piece_length is a multiple of BLOCK_SIZE is a hypothesis of the
theorems that rely on it. -/
def PieceScheduler.new (piece_hashes : List (List Nat)) (piece_length : Nat)
    (total_size : Nat) (file_lengths : List Nat) : PieceScheduler :=
  { pieces := mkPieces (piece_length % 2 ^ 32) piece_hashes 0 (total_size % 2 ^ 32)
    file_manager := FileManager.new piece_length file_lengths
    any_complete := false }

/-- Bitfields (src/client/bitfield.rs) are vectors of booleans. -/
abbrev Bitfield := List Bool

/-- Embedding of Bitfield::new (bitfield.rs lines 26-29). -/
def bitfieldNew (n : Nat) : Bitfield := List.replicate n false

/-- Embedding of Bitfield::set (bitfield.rs lines 35-44): bounds-checked,
out of range is an error (none). -/
def bitfieldSet (bf : Bitfield) (i : Nat) (v : Bool) : Option Bitfield :=
  if i < bf.length then some (bf.set i v) else none

/-- Embedding of PieceScheduler::to_bitfield (pieces.rs lines 97-103);
the unwrap on each set is modelled by threading Option. -/
def PieceScheduler.to_bitfield (s : PieceScheduler) : Option Bitfield :=
  s.pieces.foldl
    (fun acc pc => acc.bind (fun bf => bitfieldSet bf pc.index pc.completed))
    (some (bitfieldNew s.pieces.length))

/-- Semantics of Rust u32::div_ceil. -/
def divCeil (a b : Nat) : Nat := (a + b - 1) / b

/-- In-place update of the n-th list element, the effect of a Rust
index-and-mutate; claims below only apply it at in-bounds indices
(out of bounds, Rust panics and this model is a no-op). -/
def modifyNth (f : α → α) : Nat → List α → List α
  | _, [] => []
  | 0, x :: xs => f x :: xs
  | n + 1, x :: xs => x :: modifyNth f n xs

/-- Embedding of PieceScheduler::set_requested (pieces.rs lines 116-122):
block bucket = begin.div_ceil(BLOCK_SIZE), set its requested flag. -/
def PieceScheduler.set_requested (s : PieceScheduler) (index : Nat) (begin : Nat) :
    PieceScheduler :=
  { s with
    pieces := modifyNth
      (fun pc => { pc with
        blocks := modifyNth (fun b => { b with requested := true })
          (divCeil begin BLOCK_SIZE) pc.blocks })
      index s.pieces }

/-- Embedding of PieceScheduler::set_block (pieces.rs lines 124-131):
locate the block bucket, persist the bytes through the file manager,
and mark the block completed.  Nothing else happens: no hash check, no
piece completion, no any_complete update. -/
def PieceScheduler.set_block (s : PieceScheduler) (index : Nat) (begin : Nat)
    (data : List Nat) : PieceScheduler :=
  { s with
    pieces := modifyNth
      (fun pc => { pc with
        blocks := modifyNth (fun b => { b with completed := true })
          (divCeil begin BLOCK_SIZE) pc.blocks })
      index s.pieces
    file_manager := s.file_manager.save_block index begin data }

/-! ## Dispatcher per-peer state (src/client/mod.rs) -/

/-- Embedding of the protocol fields of struct PeerState (mod.rs lines
102-112); the TCP stream and the last_touch timestamp carry no protocol
state and are omitted. -/
structure PeerState where
  peer_id : PeerId
  bitfield : Option Bitfield
  am_choking : Bool
  am_interested : Bool
  peer_choking : Bool
  peer_interested : Bool
  deriving DecidableEq, Repr

/-- Embedding of the Choke arm of Client::process_messages (mod.rs lines
192-194): the single effect is peer_choking := true.  The scheduler is
not touched at all. -/
def processChoke (ps : PeerState) (sched : PieceScheduler) :
    PeerState × PieceScheduler :=
  ({ ps with peer_choking := true }, sched)

/-- Semantics of HashSet::insert on the duplicate-free peer list. -/
def insertPeer (p : PeerId) (ps : List PeerId) : List PeerId :=
  if p ∈ ps then ps else p :: ps

/-- Embedding of PieceScheduler::add_peer_have (pieces.rs lines 141-143):
pieces[i].peers.insert(peer_id); the index panic for i out of range is
modelled as none. -/
def PieceScheduler.add_peer_have (s : PieceScheduler) (peer_id : PeerId) (i : Nat) :
    Option PieceScheduler :=
  if i < s.pieces.length then
    some { s with
      pieces := modifyNth (fun pc => { pc with peers := insertPeer peer_id pc.peers })
        i s.pieces }
  else none

/-- Embedding of PieceScheduler::add_peer_count (pieces.rs lines 133-139):
for every index i where the peer's bit is set, insert the peer into
pieces[i].peers.  (When the bitfield is longer than the piece vector the
Rust indexing panics; the dispatcher only passes bitfields of length
pieces.length, where this model agrees.) -/
def PieceScheduler.add_peer_count (s : PieceScheduler) (peer_id : PeerId)
    (bf : Bitfield) : PieceScheduler :=
  { s with
    pieces := s.pieces.enum.map (fun ip =>
      if bf.getD ip.1 false then
        { ip.2 with peers := insertPeer peer_id ip.2.peers }
      else ip.2) }

/-- Embedding of PieceScheduler::remove_peer_count (pieces.rs lines
145-149): remove the peer from every piece's peer set. -/
def PieceScheduler.remove_peer_count (s : PieceScheduler) (peer_id : PeerId) :
    PieceScheduler :=
  { s with
    pieces := s.pieces.map (fun pc =>
      { pc with peers := pc.peers.filter (fun q => decide (q ≠ peer_id)) }) }

/-- Embedding of PieceScheduler::is_interested (pieces.rs lines 188-196):
true iff the peer's bitfield has a set bit at some piece we have not
completed.  (Rust iterates the bitfield and indexes pieces; on the equal
lengths the dispatcher supplies, the zip is the same function.) -/
def PieceScheduler.is_interested (s : PieceScheduler) (bf : Bitfield) : Bool :=
  (s.pieces.zip bf).any (fun pb => !pb.1.completed && pb.2)

/-- Semantics of u32::from_be_bytes on a 4-byte big-endian payload slice. -/
def u32FromBe (l : List Nat) : Nat :=
  l.foldl (fun a b => a * 256 + b % 256) 0

/-- Embedding of the Have arm of Client::process_messages (mod.rs lines
230-256) followed by the eviction epilogue (lines 337-340).  Returns
(evicted, new peer state, new scheduler), or none when the arm panics.
Steps in source order: read the 4-byte index (panics on a shorter
payload); lazily initialize the peer bitfield to N zeros; bounds-checked
bitfield set, whose error sets should_remove; then add_peer_have, whose
unchecked pieces[piece_index] PANICS when the index is out of range —
before the should_remove epilogue can run; finally, if should_remove,
drop the peer and remove_peer_count it.  The INTERESTED/NOT_INTERESTED
enqueues touch only the outbound queue and are omitted. -/
def processHave (s : PieceScheduler) (ps : PeerState) (peer_id : PeerId)
    (payload : List Nat) : Option (Bool × PeerState × PieceScheduler) :=
  if payload.length < 4 then none
  else
    let piece_index := u32FromBe (payload.take 4)
    let bf0 := match ps.bitfield with
      | none => bitfieldNew s.pieces.length
      | some bf => bf
    let r := bitfieldSet bf0 piece_index true
    let should_remove := r.isNone
    let ps1 := { ps with bitfield := some (r.getD bf0) }
    (s.add_peer_have peer_id piece_index).map (fun s1 =>
      if should_remove then (true, ps1, s1.remove_peer_count peer_id)
      else (false, ps1, s1))

/-- Modelled from the spec: Bitfield::from_bytes is called by the
dispatcher (mod.rs line 263) but is absent from bitfield.rs; spec
section 4.1 defines it as big-endian-per-byte interpretation of the
payload, bit i of the result being bit (7 - i % 8) of byte i / 8. -/
def bitfieldFromBytes (bytes : List Nat) (n : Nat) : Bitfield :=
  (List.range n).map (fun i => decide (bytes.getD (i / 8) 0 / 2 ^ (7 - i % 8) % 2 = 1))

/-- Embedding of the Bitfield arm of Client::process_messages (mod.rs
lines 257-284) followed by the eviction epilogue (lines 337-340): evict
exactly when payload.len() * 8 < num_pieces, otherwise store the decoded
bitfield on the peer and add_peer_count it.  Returns (evicted, new peer
state, new scheduler); the INTERESTED/NOT_INTERESTED enqueues touch only
the outbound queue and are omitted. -/
def processBitfield (s : PieceScheduler) (ps : PeerState) (peer_id : PeerId)
    (payload : List Nat) : Bool × PeerState × PieceScheduler :=
  if payload.length * 8 < s.pieces.length then
    (true, ps, s.remove_peer_count peer_id)
  else
    let bf := bitfieldFromBytes payload s.pieces.length
    (false, { ps with bitfield := some bf }, s.add_peer_count peer_id bf)

/-! ## Scheduling (pieces.rs lines 105-186) -/

/-- Embedding of the block predicate !b.requested && !b.completed used by
both get_rarest_noncompleted_piece and the block find in schedule_piece. -/
def availBlock (b : Block) : Bool :=
  !b.requested && !b.completed

/-- Embedding of the candidate filter of get_rarest_noncompleted_piece
(pieces.rs lines 108-112): not completed, has an available block, and
has the peer in its peer set. -/
def isCandidate (peer_id : PeerId) (pc : Piece) : Bool :=
  !pc.completed && pc.blocks.any availBlock && decide (peer_id ∈ pc.peers)

/-- Semantics of Rust Iterator::min_by_key: the element with the least
key, the FIRST one when several are equally minimal (processing the
head against the minimum of the tail, the head wins ties). -/
def rustMinByKey (k : α → Nat) : List α → Option α
  | [] => none
  | x :: xs =>
    match rustMinByKey k xs with
    | none => some x
    | some y => if k y < k x then some y else some x

/-- Embedding of PieceScheduler::get_rarest_noncompleted_piece
(pieces.rs lines 105-114): min_by_key over the candidate filter, keyed
by peer-set size. -/
def PieceScheduler.get_rarest_noncompleted_piece (s : PieceScheduler)
    (peer_id : PeerId) : Option Piece :=
  rustMinByKey (fun pc => pc.peers.length) (s.pieces.filter (isCandidate peer_id))

/-- Embedding of PieceScheduler::schedule_piece (pieces.rs lines
151-186).  rnd models the rand::random::<usize>() draw of the warm-up
branch (taken while any_complete is false, with the weaker filter that
ignores completed flags on blocks); otherwise the rarest candidate is
chosen.  Within the chosen piece the first block that is neither
requested nor completed is returned (the unwrap panic when no such
block exists is modelled as none), and set_requested marks it.  Returns
the request triple and the updated scheduler. -/
def PieceScheduler.schedule_piece (s : PieceScheduler) (peer_id : PeerId)
    (rnd : Nat) : Option (Nat × Nat × Nat) × PieceScheduler :=
  let piece? :=
    if s.any_complete = false then
      let cand := s.pieces.filter (fun pc =>
        !pc.completed && pc.blocks.any (fun b => !b.requested)
          && decide (peer_id ∈ pc.peers))
      if cand.isEmpty then none else cand.get? (rnd % cand.length)
    else s.get_rarest_noncompleted_piece peer_id
  let request := piece?.bind (fun pc =>
    (pc.blocks.find? availBlock).map (fun blk => (pc.index, blk.begin, blk.length)))
  (request,
    match request with
    | some (i, b, _) => s.set_requested i b
    | none => s)

/-- A concrete scheduler state for the rarest-first scenario of the
design document: three non-completed single-block pieces whose peer-set
sizes are 5, 2 and 3, peer [80] holding all three, any_complete true. -/
def rarestExample : PieceScheduler :=
  { pieces :=
      [ { index := 0
          blocks := [{ begin := 0, length := BLOCK_SIZE, requested := false, completed := false }]
          hash := List.replicate 20 0
          completed := false
          peers := [[1], [2], [3], [4], [80]] }
      , { index := 1
          blocks := [{ begin := 0, length := BLOCK_SIZE, requested := false, completed := false }]
          hash := List.replicate 20 0
          completed := false
          peers := [[5], [80]] }
      , { index := 2
          blocks := [{ begin := 0, length := BLOCK_SIZE, requested := false, completed := false }]
          hash := List.replicate 20 0
          completed := false
          peers := [[6], [7], [80]] } ]
    file_manager := FileManager.new 16384 [49152]
    any_complete := true }

/-! ## Claims about construction, block commit, choke, and the file layer -/

/-- C9: the block lists built by PieceScheduler::new do not partition the
pieces.  For piece_length 32768 (a multiple of BLOCK_SIZE = 16384) and a
single-piece torrent of total size 32768, the while guard compares
offset against min(piece_length, remaining_size) with remaining_size
already decremented by the first block, so the loop stops after one
16384-byte block: the piece's block lengths sum to 16384, not 32768,
and the torrent total is not covered. -/
theorem new_blocks_do_not_cover_piece :
    32768 % BLOCK_SIZE = 0 ∧
    (PieceScheduler.new [List.replicate 20 0] 32768 32768 [32768]).pieces.map
      (fun pc => (pc.blocks.map Block.length).sum) = [16384] := by
  decide

/-- C1: set_block neither hash-verifies nor completes a piece.  For a
single-piece single-block torrent, after set_block has recorded the
only (hence last remaining) block, the block is completed but the piece
completion flag stays false, any_complete stays false, and to_bitfield
returns all zeros instead of the claimed all ones. -/
theorem set_block_never_completes_piece :
    ((PieceScheduler.new [List.replicate 20 0] 16384 16384 [16384]).set_block
        0 0 (List.replicate 16384 0)).pieces.map
      (fun pc => pc.blocks.map Block.completed) = [[true]] ∧
    ((PieceScheduler.new [List.replicate 20 0] 16384 16384 [16384]).set_block
        0 0 (List.replicate 16384 0)).pieces.map Piece.completed = [false] ∧
    ((PieceScheduler.new [List.replicate 20 0] 16384 16384 [16384]).set_block
        0 0 (List.replicate 16384 0)).any_complete = false ∧
    ((PieceScheduler.new [List.replicate 20 0] 16384 16384 [16384]).set_block
        0 0 (List.replicate 16384 0)).to_bitfield = some [false] := by
  decide

/-- C2: the Choke arm only flips peer_choking; the scheduler — and with
it every requested flag — is untouched.  With block (3, 0) requested
in a four-piece torrent, processing CHOKE leaves the scheduler equal to
its previous state and block (3, 0) still requested. -/
theorem choke_does_not_reset_requested :
    (processChoke
        { peer_id := [80], bitfield := none, am_choking := true,
          am_interested := false, peer_choking := false, peer_interested := false }
        ((PieceScheduler.new (List.replicate 4 (List.replicate 20 0))
          16384 65536 [65536]).set_requested 3 0)).2
      = (PieceScheduler.new (List.replicate 4 (List.replicate 20 0))
          16384 65536 [65536]).set_requested 3 0 ∧
    (processChoke
        { peer_id := [80], bitfield := none, am_choking := true,
          am_interested := false, peer_choking := false, peer_interested := false }
        ((PieceScheduler.new (List.replicate 4 (List.replicate 20 0))
          16384 65536 [65536]).set_requested 3 0)).1.peer_choking = true ∧
    ((PieceScheduler.new (List.replicate 4 (List.replicate 20 0))
        16384 65536 [65536]).set_requested 3 0).pieces.map
      (fun pc => pc.blocks.map Block.requested)
      = [[false], [false], [false], [true]] := by
  decide

/-- C3: save_block writes the whole buffer into the first file whose
range contains the starting offset and then breaks, so a block that
spans a file boundary is not split: with declared file lengths 10 and
6 and a 16-byte block at global offset 0, all 16 bytes land in file 1
(past its declared end) and file 2 stays empty, so reading the global
range back through the file mapping yields zeros for the tail instead
of the written bytes. -/
theorem save_block_does_not_split_across_files :
    ((FileManager.new 16 [10, 6]).save_block 0 0 (List.replicate 16 1)).files
      = [(List.replicate 16 1, 10), ([], 6)] ∧
    readGlobal ((FileManager.new 16 [10, 6]).save_block 0 0
        (List.replicate 16 1)).files 0 16 ≠ List.replicate 16 1 ∧
    readGlobal ((FileManager.new 16 [10, 6]).save_block 0 0
        (List.replicate 16 1)).files 0 16
      = List.replicate 10 1 ++ List.replicate 6 0 := by
  decide

/-- C4: verify_piece does not follow save_block's mapping.  It selects
the right file but then calls read_at with the GLOBAL byte offset
instead of the file-relative one: for two files of declared length 4
with piece_length 4, the bytes save_block stored for piece 1 at offset
0 of file 2 are read back by verify_piece from offset 4 of file 2,
yielding a zero buffer rather than the piece's bytes, so the SHA-1 is
computed over the wrong bytes. -/
theorem verify_piece_reads_wrong_offset :
    ((FileManager.new 4 [4, 4]).save_block 1 0 [5, 6, 7, 8]).files
      = [([], 4), ([5, 6, 7, 8], 4)] ∧
    readGlobal ((FileManager.new 4 [4, 4]).save_block 1 0 [5, 6, 7, 8]).files 4 4
      = [5, 6, 7, 8] ∧
    ((FileManager.new 4 [4, 4]).save_block 1 0 [5, 6, 7, 8]).verifyPieceBuf 1
      = some [0, 0, 0, 0] ∧
    ((FileManager.new 4 [4, 4]).save_block 1 0 [5, 6, 7, 8]).verifyPieceBuf 1
      ≠ some (readGlobal
          ((FileManager.new 4 [4, 4]).save_block 1 0 [5, 6, 7, 8]).files 4 4) := by
  decide

/-! ## Facts about rustMinByKey shared by the scheduling claims -/

/-- rustMinByKey returns none exactly on the empty list. -/
theorem rustMinByKey_eq_none {α : Type} {k : α → Nat} {l : List α} :
    rustMinByKey k l = none ↔ l = [] := by
  cases l with
  | nil => simp [rustMinByKey]
  | cons x xs =>
    simp only [rustMinByKey]
    constructor
    · intro h
      split at h
      · exact absurd h (by simp)
      · split at h <;> exact absurd h (by simp)
    · intro h
      exact absurd h (by simp)

/-- The element rustMinByKey returns is in the list. -/
theorem rustMinByKey_mem {α : Type} {k : α → Nat} :
    ∀ {l : List α} {a : α}, rustMinByKey k l = some a → a ∈ l := by
  intro l
  induction l with
  | nil => intro a h; simp [rustMinByKey] at h
  | cons x xs ih =>
    intro a h
    simp only [rustMinByKey] at h
    split at h
    · injection h with h
      subst h
      exact List.mem_cons_self x xs
    · rename_i y heq
      split at h
      · injection h with h
        subst h
        exact List.mem_cons_of_mem x (ih heq)
      · injection h with h
        subst h
        exact List.mem_cons_self x xs

/-- The key of the element rustMinByKey returns is minimal in the list. -/
theorem rustMinByKey_le {α : Type} {k : α → Nat} :
    ∀ {l : List α} {a : α}, rustMinByKey k l = some a → ∀ z ∈ l, k a ≤ k z := by
  intro l
  induction l with
  | nil => intro a h; simp [rustMinByKey] at h
  | cons x xs ih =>
    intro a h z hz
    simp only [rustMinByKey] at h
    split at h
    · rename_i heq
      injection h with h
      subst h
      have hnil : xs = [] := rustMinByKey_eq_none.mp heq
      subst hnil
      simp at hz
      subst hz
      exact le_refl _
    · rename_i y heq
      split at h
      · rename_i hk
        injection h with h
        subst h
        rcases List.mem_cons.mp hz with rfl | hz'
        · exact le_of_lt hk
        · exact ih heq z hz'
      · rename_i hk
        injection h with h
        subst h
        rcases List.mem_cons.mp hz with rfl | hz'
        · exact le_refl _
        · exact le_trans (not_lt.mp hk) (ih heq z hz')

/-- Among elements of equal minimal key, rustMinByKey returns the first:
relative to any Pairwise relation along the list, every other element
with the same key is the result itself or sits R-after it. -/
theorem rustMinByKey_first {α : Type} {R : α → α → Prop} {k : α → Nat} :
    ∀ {l : List α} {a : α}, l.Pairwise R → rustMinByKey k l = some a →
      ∀ z ∈ l, k z = k a → a = z ∨ R a z := by
  intro l
  induction l with
  | nil => intro a _ h; simp [rustMinByKey] at h
  | cons x xs ih =>
    intro a hp h z hz hkz
    obtain ⟨hx, hxs'⟩ := List.pairwise_cons.mp hp
    simp only [rustMinByKey] at h
    split at h
    · rename_i heq
      injection h with h
      subst h
      have hnil : xs = [] := rustMinByKey_eq_none.mp heq
      subst hnil
      simp at hz
      subst hz
      exact Or.inl rfl
    · rename_i y heq
      split at h
      · rename_i hk
        injection h with h
        subst h
        rcases List.mem_cons.mp hz with rfl | hz'
        · exact absurd (hkz ▸ hk) (lt_irrefl _)
        · exact ih hxs' heq z hz' hkz
      · rename_i hk
        injection h with h
        subst h
        rcases List.mem_cons.mp hz with rfl | hz'
        · exact Or.inl rfl
        · exact Or.inr (hx z hz')

/-- After remove_peer_count, no piece's peer set contains the peer. -/
theorem remove_peer_count_not_mem (s : PieceScheduler) (p : PeerId) :
    ∀ pc ∈ (s.remove_peer_count p).pieces, p ∉ pc.peers := by
  intro pc hpc
  simp only [PieceScheduler.remove_peer_count, List.mem_map] at hpc
  obtain ⟨q, _, rfl⟩ := hpc
  simp [List.mem_filter]

/-! ## Claims about scheduling and the dispatcher -/

/-- C5: with any_complete set, schedule_piece takes the rarest-first
branch: whenever it returns a request (i, b, l), there is a piece pc in
the scheduler that passes the candidate filter (not completed, has a
block neither requested nor completed, holds the peer), whose index is
i, whose peer-set size is minimal among all candidates — with ties
broken towards the smallest index when piece indices increase along the
vector, as PieceScheduler::new lays them out — and (b, l) are the
offset and length of pc's first available block. -/
theorem schedule_piece_rarest_first (s : PieceScheduler) (p : PeerId) (rnd : Nat)
    (hac : s.any_complete = true)
    (hidx : s.pieces.Pairwise (fun u v => u.index < v.index))
    (i b l : Nat) (hret : (s.schedule_piece p rnd).1 = some (i, b, l)) :
    ∃ pc, pc ∈ s.pieces ∧ isCandidate p pc = true ∧ pc.index = i ∧
      (∀ q ∈ s.pieces, isCandidate p q = true → pc.peers.length ≤ q.peers.length) ∧
      (∀ q ∈ s.pieces, isCandidate p q = true →
        q.peers.length = pc.peers.length → pc.index ≤ q.index) ∧
      ∃ blk, pc.blocks.find? availBlock = some blk ∧ blk.begin = b ∧ blk.length = l := by
  have hfst : (s.schedule_piece p rnd).1
      = (s.get_rarest_noncompleted_piece p).bind (fun pc =>
          (pc.blocks.find? availBlock).map (fun blk => (pc.index, blk.begin, blk.length))) := by
    simp only [PieceScheduler.schedule_piece, hac]
    simp
  rw [hfst] at hret
  rw [Option.bind_eq_some] at hret
  obtain ⟨pc, hpc, hmap⟩ := hret
  rw [Option.map_eq_some'] at hmap
  obtain ⟨blk, hblk, heq⟩ := hmap
  obtain ⟨hi, hb, hl⟩ : pc.index = i ∧ blk.begin = b ∧ blk.length = l := by
    injection heq with h1 h2
    injection h2 with h2 h3
    exact ⟨h1, h2, h3⟩
  have hpmem := rustMinByKey_mem hpc
  have hcand := (List.mem_filter.mp hpmem).2
  have hpl : s.pieces.Pairwise
      (fun u v : Piece => u.index < v.index) := hidx
  have hfp : (s.pieces.filter (isCandidate p)).Pairwise
      (fun u v : Piece => u.index < v.index) :=
    List.Pairwise.sublist (List.filter_sublist s.pieces) hpl
  refine ⟨pc, (List.mem_filter.mp hpmem).1, hcand, hi, ?_, ?_, blk, hblk, hb, hl⟩
  · intro q hq hcq
    exact rustMinByKey_le hpc q (List.mem_filter.mpr ⟨hq, hcq⟩)
  · intro q hq hcq hkq
    rcases rustMinByKey_first hfp hpc q (List.mem_filter.mpr ⟨hq, hcq⟩) hkq with rfl | hlt
    · exact le_refl _
    · exact le_of_lt hlt

/-- Witness for C5 on the design document's rarest-first scenario:
peer-set sizes 5, 2, 3, peer [80] holding all three pieces; the request
is piece 1's first block (1, 0, 16384) and the rarest-first properties
hold there. -/
theorem schedule_piece_rarest_first_witness :
    (rarestExample.schedule_piece [80] 0).1 = some (1, 0, 16384) ∧
    ∃ pc, pc ∈ rarestExample.pieces ∧ isCandidate [80] pc = true ∧ pc.index = 1 ∧
      (∀ q ∈ rarestExample.pieces, isCandidate [80] q = true →
        pc.peers.length ≤ q.peers.length) ∧
      (∀ q ∈ rarestExample.pieces, isCandidate [80] q = true →
        q.peers.length = pc.peers.length → pc.index ≤ q.index) ∧
      ∃ blk, pc.blocks.find? availBlock = some blk ∧ blk.begin = 0 ∧ blk.length = 16384 :=
  ⟨by decide,
    schedule_piece_rarest_first rarestExample [80] 0 (by decide) (by decide)
      1 0 16384 (by decide)⟩

/-- C6 counterexample: the Bitfield arm evicts only on payload.len() * 8
< N, so for N = 10 a payload of 3 bytes — longer than ceil(10/8) = 2 —
is NOT evicted, contradicting the claim that any length other than
exactly ceil(N/8) causes eviction. -/
theorem bitfield_overlong_payload_not_evicted :
    (PieceScheduler.new (List.replicate 10 (List.replicate 20 0))
        16384 163840 [163840]).pieces.length = 10 ∧
    (3 : Nat) ≠ (10 + 7) / 8 ∧
    (processBitfield
      (PieceScheduler.new (List.replicate 10 (List.replicate 20 0))
        16384 163840 [163840])
      { peer_id := [80], bitfield := none, am_choking := true,
        am_interested := false, peer_choking := false, peer_interested := false }
      [80] [0, 0, 0]).1 = false := by
  decide

/-- C6 amended: the dispatcher evicts on a BITFIELD exactly when the
payload is too short to cover the pieces (payload.len() * 8 < N; longer
payloads are accepted), and an evicted peer leaves no entries in any
piece's peer set. -/
theorem bitfield_evicts_iff_too_short (s : PieceScheduler) (ps : PeerState)
    (peer_id : PeerId) (payload : List Nat) :
    ((processBitfield s ps peer_id payload).1 = true ↔
      payload.length * 8 < s.pieces.length) ∧
    ((processBitfield s ps peer_id payload).1 = true →
      ∀ pc ∈ (processBitfield s ps peer_id payload).2.2.pieces,
        peer_id ∉ pc.peers) := by
  by_cases h : payload.length * 8 < s.pieces.length
  · simp only [processBitfield, if_pos h]
    exact ⟨by simpa using h, fun _ => remove_peer_count_not_mem s peer_id⟩
  · simp only [processBitfield, if_neg h]
    constructor
    · simpa using h
    · intro hfalse
      simp at hfalse

/-- Witness for C6: with N = 10 and a 1-byte payload the peer is evicted
and afterwards appears in no piece's peer set. -/
theorem bitfield_evicts_iff_too_short_witness :
    (processBitfield
      (PieceScheduler.new (List.replicate 10 (List.replicate 20 0))
        16384 163840 [163840])
      { peer_id := [80], bitfield := none, am_choking := true,
        am_interested := false, peer_choking := false, peer_interested := false }
      [80] [0]).1 = true ∧
    ∀ pc ∈ (processBitfield
      (PieceScheduler.new (List.replicate 10 (List.replicate 20 0))
        16384 163840 [163840])
      { peer_id := [80], bitfield := none, am_choking := true,
        am_interested := false, peer_choking := false, peer_interested := false }
      [80] [0]).2.2.pieces, [80] ∉ pc.peers := by
  constructor
  · exact (bitfield_evicts_iff_too_short _ _ [80] [0]).1.mpr (by decide)
  · exact (bitfield_evicts_iff_too_short _ _ [80] [0]).2
      ((bitfield_evicts_iff_too_short _ _ [80] [0]).1.mpr (by decide))

/-- C8: a HAVE whose index is out of range does not evict the peer — it
panics.  For N = 10 and index 10, the bounds-checked bitfield set flags
the peer for removal, but the unconditional add_peer_have then indexes
pieces[10] and panics (modelled none) before the eviction epilogue can
run, so the engine aborts instead of continuing. -/
theorem have_out_of_range_panics :
    (PieceScheduler.new (List.replicate 10 (List.replicate 20 0))
        16384 163840 [163840]).pieces.length = 10 ∧
    processHave
      (PieceScheduler.new (List.replicate 10 (List.replicate 20 0))
        16384 163840 [163840])
      { peer_id := [80], bitfield := none, am_choking := true,
        am_interested := false, peer_choking := false, peer_interested := false }
      [80] [0, 0, 0, 10] = none := by
  decide

/-! ## Claims about the wire codec -/

/-- C7: the keep-alive frames the ticker enqueues are
Message::new(KeepAlive, []) (mod.rs lines 353-357); their serialization
is 00 00 00 01 0a, not the claimed 00 00 00 00, because Message::new
always counts an id byte and serialize always emits it.  The decoder
half of the claim does hold: an incoming frame with length prefix 0
decodes to KeepAlive. -/
theorem keepAlive_serialization_has_id_byte :
    (Message.new MessageId.KeepAlive []).serialize = [0, 0, 0, 1, 10] ∧
    (Message.new MessageId.KeepAlive []).serialize ≠ [0, 0, 0, 0] ∧
    decodeFrame 0 [] =
      some { len := 0, id := MessageId.KeepAlive.value, payload := [] } := by
  decide

/-- C10: from_value maps every id in 11..=255 to its unreachable! arm
(modelled none), while the frame decoder passes the first body byte
through as the id unchecked, so a frame carrying an unknown id (such as
the extension-protocol id 20) is decoded successfully and then panics
the dispatcher inside get_id. -/
theorem unknown_message_id_panics (n : Nat) (h1 : 11 ≤ n) (h2 : n ≤ 255)
    (L : Nat) (hL : L ≠ 0) (rest : List Nat) :
    MessageId.fromValue n = none ∧
    decodeFrame L (n :: rest) = some { len := L, id := n, payload := rest } ∧
    (Message.mk L n rest).getId = none := by
  have hv : MessageId.fromValue n = none := by
    unfold MessageId.fromValue
    iterate 11 rw [if_neg (by omega)]
  refine ⟨hv, ?_, hv⟩
  unfold decodeFrame
  rw [if_neg hL]

/-- Witness for C10 at the extension-protocol id 20 in a frame of length 2. -/
theorem unknown_message_id_panics_witness :
    MessageId.fromValue 20 = none ∧
    decodeFrame 2 (20 :: [7]) = some { len := 2, id := 20, payload := [7] } ∧
    (Message.mk 2 20 [7]).getId = none :=
  unknown_message_id_panics 20 (by decide) (by decide) 2 (by decide) [7]

end RTorrent
